import Mathlib

/-!
Verification development for the photo-scanner ingestion and query pipeline.

Shallow embedding of the repository's domain code:
  * `src/domain/models.rs`   — `VectorOutput`, `VectorInput`, `sort_by_score`, `limit_results`
  * `src/domain/descriptions.rs` — the `can_be_skipped` skip policy
  * `src/domain/embeddings.rs`   — `EmbeddingsService::process_path` / `generate`
  * `src/outbound/test_mocks.rs` — the in-memory vector-store semantics
    (`upsert_points` replace-by-id, `find_by_id`)
  * `src/bin/query.rs`       — the query program's post-search control flow

`f32` scores and embedding coordinates are modelled as `ℚ`; `u64` ids as `Nat`;
`HashMap<String, String>` payloads as association lists with distinct keys;
fallible collaborators return `Except`; `unwrap()` panics are modelled as a
distinguished error value.
-/

namespace PhotoScanner

/-! ### Data model (src/domain/models.rs) -/

/-- Payload of a vector point: `HashMap<String, String>` modelled as an
association list (the code only ever inserts three distinct keys). -/
abbrev Payload := List (String × String)

/-- `HashMap::get` on a payload: first (only) binding of the key. -/
def payloadGet (p : Payload) (k : String) : Option String :=
  (p.find? (fun kv => kv.1 == k)).map (fun kv => kv.2)

/-- `VectorOutput` (models.rs): id, optional similarity score, payload. -/
structure VectorOutput where
  id : Nat
  score : Option ℚ
  payload : Payload
deriving DecidableEq

/-- `VectorInput` (models.rs): a point to be upserted. -/
structure VectorInput where
  id : Nat
  embedding : List ℚ
  payload : Payload
deriving DecidableEq

/-- `Option<f32>` ordering used by the comparator `b.score.partial_cmp(&a.score)`:
`None` is less than any `Some` (the derived `PartialOrd` on `Option`). -/
def optScoreLe : Option ℚ → Option ℚ → Bool
  | none, _ => true
  | some _, none => false
  | some x, some y => decide (x ≤ y)

/-- Sort relation of `sort_by_score`: `a` may precede `b` when `b.score ≤ a.score`
in the `Option` order, i.e. descending scores with missing scores last. -/
def scoreDescLe (a b : VectorOutput) : Prop := optScoreLe b.score a.score = true

instance : DecidableRel scoreDescLe := fun a b =>
  Bool.decEq (optScoreLe b.score a.score) true

instance : IsTotal VectorOutput scoreDescLe := by
  constructor
  rintro ⟨_, sa, _⟩ ⟨_, sb, _⟩
  unfold scoreDescLe
  cases sa <;> cases sb <;> simp [optScoreLe]
  exact le_total _ _

instance : IsTrans VectorOutput scoreDescLe := by
  constructor
  rintro ⟨_, sa, _⟩ ⟨_, sb, _⟩ ⟨_, sc, _⟩ hab hbc
  unfold scoreDescLe at *
  cases sa <;> cases sb <;> cases sc <;> simp [optScoreLe] at *
  exact le_trans hbc hab

/-- `VectorOutputListUtils::sort_by_score` (models.rs): a stable in-place sort by the
comparator `b.score.partial_cmp(&a.score)`; Rust's stable `sort_by` is modelled by
stable insertion sort with the same comparator. -/
def sort_by_score (l : List VectorOutput) : List VectorOutput :=
  l.insertionSort scoreDescLe

/-- `VectorOutputListUtils::limit_results` (models.rs):
`retain(|output| output.score.map_or(false, |s| s > score))`. -/
def limit_results (l : List VectorOutput) (score : ℚ) : List VectorOutput :=
  l.filter (fun output => ((output.score.map (fun s => decide (score < s))).getD false))

/-! ### Skip policy (src/domain/descriptions.rs, `can_be_skipped`) -/

/-- Regex word character (`\w`), restricted to the ASCII range the code's tokens
and the spec's examples use. -/
def isWordChar (c : Char) : Bool := c.isAlphanum || c == '_'

/-- Word-character test on an optional neighbouring character (absent at either
end of the string, where `\b` always holds against a word character). -/
def isWordOpt : Option Char → Bool
  | none => false
  | some c => isWordChar c

/-- Literal match of `pat` at the start of `l` (character-by-character). -/
def matchesHere : List Char → List Char → Bool
  | [], _ => true
  | _ :: _, [] => false
  | a :: as, b :: bs => a == b && matchesHere as bs

/-- Whole-word match of token `tok` at the start of `l`: the token matches
literally and the following character, if any, is not a word character. -/
def wordMatchAt (tok l : List Char) : Bool :=
  matchesHere tok l && !(isWordOpt (l.drop tok.length).head?)

/-- Scan for a whole-word occurrence of `tok`, tracking the preceding character
so that the left `\b` boundary can be checked. -/
def scanToken (tok : List Char) : Option Char → List Char → Bool
  | _, [] => false
  | prev, c :: rest =>
    (!(isWordOpt prev) && wordMatchAt tok (c :: rest)) || scanToken tok (some c) rest

/-- The alternation of `(?i)\b(image|photo|picture|photograph)\b`. -/
def genericTokens : List String := ["image", "photo", "picture", "photograph"]

/-- Semantics of `Regex::new(r"(?i)\b(image|photo|picture|photograph)\b").is_match`:
case-insensitivity via lower-casing both sides (the tokens are ASCII). -/
def hasGenericToken (s : String) : Bool :=
  genericTokens.any
    (fun tok => scanToken (tok.data.map Char.toLower) none (s.data.map Char.toLower))

/-- `can_be_skipped` (descriptions.rs:139-154): no description means do not skip;
a description matching the generic pattern means reprocess (do not skip);
any other stored description means skip. -/
def can_be_skipped (description : Option String) : Bool :=
  match description with
  | some description => if hasGenericToken description then false else true
  | none => false

/-! ### Substring containment (`String::contains`, used by the idempotency probe) -/

/-- `String::contains` on character lists: the needle matches at some position
of the haystack (the empty needle matches everywhere). -/
def containsChars (needle : List Char) : List Char → Bool
  | [] => matchesHere needle []
  | c :: t => matchesHere needle (c :: t) || containsChars needle t

/-- `haystack.contains(&needle)` for strings. -/
def strContains (haystack needle : String) : Bool :=
  containsChars needle.data haystack.data

/-! ### File paths

Rust `PathBuf` restricted to what the domain code uses: an optional root plus a
list of normal components. `parent` drops the last component and is `None` on a
root-only or empty path; `file_name` is the last component, if any. -/

/-- A filesystem path: whether it starts at the root, and its normal components. -/
structure RPath where
  absolute : Bool
  components : List String
deriving DecidableEq

/-- `Path::parent`: `None` for an empty or root-only path, otherwise the path
without its final component. -/
def RPath.parent (p : RPath) : Option RPath :=
  match p.components with
  | [] => none
  | _ :: _ => some ⟨p.absolute, p.components.dropLast⟩

/-- `Path::file_name`: the final normal component, if any. -/
def RPath.fileName (p : RPath) : Option String := p.components.getLast?

/-- `Path::display().to_string()`. -/
def RPath.display (p : RPath) : String :=
  (if p.absolute then "/" else "") ++ String.intercalate "/" p.components

/-! ### Vector-store state (src/outbound/test_mocks.rs `VectorDBMock`)

One collection is modelled as a list of stored points; `upsert_points` removes
any entry with the incoming id and appends the new entry, `find_by_id` returns
the first entry with the id (score `None`), `search_points` lists the
collection. The embedded `VectorDBMock` inside embeddings.rs (lines 277-303)
has the same replace-by-id upsert. -/

/-- Upsert of a single point: drop an existing entry with the same id (if any),
then push the new entry at the end. -/
def upsertOne (col : List VectorInput) (input : VectorInput) : List VectorInput :=
  (if col.any (fun entry => entry.id == input.id)
   then col.filter (fun entry => !(entry.id == input.id))
   else col) ++ [input]

/-- `VectorDBMock::upsert_points` (test_mocks.rs:94-116): upsert each input in
order into the collection. -/
def upsert_points (col : List VectorInput) (inputs : List VectorInput) : List VectorInput :=
  inputs.foldl upsertOne col

/-- `VectorDBMock::find_by_id` (test_mocks.rs:73-92). -/
def find_by_id (col : List VectorInput) (id : Nat) : Option VectorOutput :=
  (col.find? (fun v => v.id == id)).map (fun v => ⟨v.id, none, v.payload⟩)

/-- A sequence of `upsert_points` calls applied to a freshly created (empty)
collection. -/
def applyUpserts (batches : List (List VectorInput)) : List VectorInput :=
  batches.foldl upsert_points []

/-- Decidable equality of `Except` results, for evaluating runs on concrete
inputs. -/
instance {ε α : Type} [DecidableEq ε] [DecidableEq α] : DecidableEq (Except ε α)
  | .ok x, .ok y =>
    if h : x = y then isTrue (by rw [h])
    else isFalse (by intro hc; injection hc; contradiction)
  | .ok _, .error _ => isFalse (by intro hc; exact Except.noConfusion hc)
  | .error _, .ok _ => isFalse (by intro hc; exact Except.noConfusion hc)
  | .error x, .error y =>
    if h : x = y then isTrue (by rw [h])
    else isFalse (by intro hc; injection hc; contradiction)

/-! ### Ingestion (src/domain/embeddings.rs) -/

/-- Failure modes of one `process_path` call: a propagated collaborator error
(`Err` return), or a Rust panic from `unwrap()` on a missing parent/file name. -/
inductive PErr
  | collaborator
  | panic
deriving DecidableEq

/-- The collaborators `process_path` consults: the XMP metadata store
(`get_description`) and the embedding provider (`get_embedding`). -/
structure Collabs where
  getDescription : RPath → Except Unit (Option String)
  getEmbedding : String → Except Unit (List ℚ)

/-- Result of one successful `process_path` call: the vector-store state after
the call, whether an upsert was performed, and the list of embedding requests
issued (each request is the list of texts it covered). -/
structure PPResult where
  store : List VectorInput
  didUpsert : Bool
  embedCalls : List (List String)
deriving DecidableEq

/-- The payload built at embeddings.rs:114-117: path display string, the
freshly-read description, and the parent directory name as `folder`. -/
def ingestPayload (path : RPath) (description folder : String) : Payload :=
  [("path", path.display), ("description", description), ("folder", folder)]

/-- The existing-entry probe (embeddings.rs:82-103): skip when a point with the
content id exists and its stored payload description contains the freshly-read
description. -/
def skipExisting (store : List VectorInput) (id : Nat) (description : String) : Bool :=
  match find_by_id store id with
  | some existing =>
    match payloadGet existing.payload "description" with
    | some existingDescription => strContains existingDescription description
    | none => false
  | none => false

/-- `EmbeddingsService::process_path` (embeddings.rs:74-158) over the mock-store
semantics: read the description; absent description is a logged no-op; probe the
store by the path's content id and skip if unchanged; otherwise request one
embedding for this description, extract the parent directory name
(`parent().unwrap().file_name().unwrap()`, a panic when absent), and upsert the
point. -/
def process_path (c : Collabs) (hash : RPath → Nat) (path : RPath)
    (store : List VectorInput) : Except PErr PPResult :=
  match c.getDescription path with
  | .error _ => .error .collaborator
  | .ok none => .ok ⟨store, false, []⟩
  | .ok (some description) =>
    let id := hash path
    if skipExisting store id description then
      .ok ⟨store, false, []⟩
    else
      match c.getEmbedding description with
      | .error _ => .error .collaborator
      | .ok embedding =>
        match path.parent.bind RPath.fileName with
        | none => .error .panic
        | some folder =>
          .ok ⟨upsertOne store ⟨id, embedding, ingestPayload path description folder⟩,
            true, [[description]]⟩

/-- Failure mode of a `generate` run: a panic from
`path.parent().unwrap()` when building the progress message, or a propagated
panic from within `process_path` (panics are not caught by the
`if let Err(e)` guard). -/
inductive GErr
  | panic
deriving DecidableEq

/-- Result of a `generate` run: the final store and all embedding requests
issued during the run. -/
structure GenResult where
  store : List VectorInput
  embedCalls : List (List String)
deriving DecidableEq

/-- The per-file loop of `EmbeddingsService::generate` (embeddings.rs:57-70),
linearized: compute the progress message from `path.parent().unwrap()` (panic
when absent), then run `process_path`; an `Err` return is logged and the loop
continues with the store unchanged. -/
def generateLoop (c : Collabs) (hash : RPath → Nat) :
    List RPath → List VectorInput → List (List String) → Except GErr GenResult
  | [], store, calls => .ok ⟨store, calls⟩
  | path :: rest, store, calls =>
    match path.parent with
    | none => .error .panic
    | some _ =>
      match process_path c hash path store with
      | .ok r => generateLoop c hash rest r.store (calls ++ r.embedCalls)
      | .error .collaborator => generateLoop c hash rest store calls
      | .error .panic => .error .panic

/-- `EmbeddingsService::generate` (embeddings.rs:40-72) over a scanned file
list (`DROP_COLLECTION` is `false`, so no collection is dropped or created);
returns `Ok(())` after the loop, here together with the final state. -/
def generate (c : Collabs) (hash : RPath → Nat) (files : List RPath)
    (store : List VectorInput) : Except GErr GenResult :=
  generateLoop c hash files store []

/-! ### Query program (src/bin/query.rs, after the search call) -/

/-- Observable outcome of the query program: the empty-result report, or an
answer produced by the summarization collaborator. -/
inductive QueryOutcome
  | noMatches
  | answered (answer : String)
deriving DecidableEq

/-- The tail of `query.rs::main` (lines 34-58): sort the search results by
score, report and return on an empty list, otherwise project the description
payload fields and pass them to `process_search_result`. -/
def query_main (searchResult : List VectorOutput)
    (summarize : String → List String → Except Unit String)
    (question : String) : Except Unit QueryOutcome :=
  let result := sort_by_score searchResult
  if result.isEmpty then .ok .noMatches
  else
    let options := result.map (fun r => (payloadGet r.payload "description").getD "")
    match summarize question options with
    | .error _ => .error ()
    | .ok answer => .ok (.answered answer)

/-! ### Concrete fixtures for witnesses and counterexamples -/

/-- Collaborators that always succeed: a fixed description and embedding. -/
def chatW : Collabs := ⟨fun _ => .ok (some "a dog"), fun _ => .ok [7]⟩

/-- Collaborators that always fail. -/
def chatFail : Collabs := ⟨fun _ => .error (), fun _ => .error ()⟩

/-- A concrete content-id function (stands for `DefaultHasher` on the path). -/
def hashW : RPath → Nat := fun p => p.components.length

/-- A relative two-component file path `holiday/img.jpg`. -/
def pathW : RPath := ⟨false, ["holiday", "img.jpg"]⟩

/-- The root path `/`, which has no parent component. -/
def rootPathW : RPath := ⟨true, []⟩

/-- The empty relative path, which has no parent component either. -/
def emptyPathW : RPath := ⟨false, []⟩

/-- The store produced by one successful `process_path` run on `pathW` from an
empty collection. -/
def storeW : List VectorInput := [⟨2, [7], ingestPayload pathW "a dog" "holiday"⟩]

/-- Collaborators whose description is the file name, to distinguish files. -/
def chatC4 : Collabs := ⟨fun p => .ok (some (p.fileName.getD "")), fun _ => .ok [7]⟩

/-- First file of the two-file corpus. -/
def pathC41 : RPath := ⟨false, ["d", "a.jpg"]⟩

/-- Second file of the two-file corpus. -/
def pathC42 : RPath := ⟨false, ["d", "b.jpg"]⟩

/-- A content-id function separating the two files of the corpus. -/
def hashC4 : RPath → Nat := fun p => if p = pathC41 then 1 else 2

/-- A search result whose score sits exactly at the threshold used below. -/
def outW : VectorOutput := ⟨5, some (mkRat 1 2), []⟩

/-- A store holding a stale point under `pathW`'s content id whose description
does not contain the freshly-read one, so the probe does not short-circuit. -/
def staleStoreW : List VectorInput := [⟨2, [], [("description", "a cat")]⟩]

/-- A file directly under the filesystem root, as scanning `/` would yield it:
its parent is `/`, which has no extractable file name. -/
def rootFileW : RPath := ⟨true, ["a.jpg"]⟩

/-! ### Description generation (src/domain/descriptions.rs, `DescriptionService::generate`) -/

/-- What happened to one file during a description run; every collaborator
failure maps to an outcome, never to a run-level error. -/
inductive DescOutcome
  | skipped
  | encodeFailed
  | chatFailed
  | generated (description : String) (stored : Bool)
deriving DecidableEq

/-- The collaborators `DescriptionService` consults: XMP metadata
(read/write), person extraction, the image encoder, and the vision model. -/
structure DescCollabs where
  getDescription : RPath → Except Unit (Option String)
  getPersons : RPath → Except Unit (List String)
  encodeImage : RPath → Except Unit String
  getImageDescription : String → List String → Option String → Except Unit String
  setDescription : RPath → String → Except Unit Unit

/-- The per-file body of `DescriptionService::generate` (descriptions.rs:62-127):
a metadata read error defaults to no description (`unwrap_or_default`), the skip
policy may end processing, a persons error defaults to an empty list, encoding
and chat errors end the file's processing, and a metadata-write error is only
logged. Every branch returns an outcome; none fails the run. -/
def descProcessFile (c : DescCollabs) (path : RPath) : DescOutcome :=
  let description := match c.getDescription path with
    | .ok d => d
    | .error _ => none
  if can_be_skipped description then .skipped
  else
    let persons := match c.getPersons path with
      | .ok ps => ps
      | .error _ => []
    match c.encodeImage path with
    | .error _ => .encodeFailed
    | .ok image =>
      let folderName := path.parent.bind RPath.fileName
      match c.getImageDescription image persons folderName with
      | .error _ => .chatFailed
      | .ok desc =>
        match c.setDescription path desc with
        | .error _ => .generated desc false
        | .ok _ => .generated desc true

/-- `DescriptionService::generate` (descriptions.rs:38-135), linearized: for
each file the progress message is built from `path.parent().expect(..)` (a
panic when the parent is absent), the file is processed, and the progress
counter advances; the run returns the final counter. -/
def descriptions_generate (c : DescCollabs) :
    List RPath → Nat → List DescOutcome → Except GErr (Nat × List DescOutcome)
  | [], n, outs => .ok (n, outs)
  | path :: rest, n, outs =>
    match path.parent with
    | none => .error .panic
    | some _ => descriptions_generate c rest (n + 1) (outs ++ [descProcessFile c path])

/-- Description collaborators that always fail. -/
def descChatFail : DescCollabs :=
  ⟨fun _ => .error (), fun _ => .error (), fun _ => .error (),
    fun _ _ _ => .error (), fun _ _ => .error ()⟩

/-! ## Helper lemmas -/

/-- Literal matching is reflexive. -/
theorem matchesHere_refl (l : List Char) : matchesHere l l = true := by
  induction l with
  | nil => rfl
  | cons c t ih => simp [matchesHere, ih]

/-- Every string occurs in itself (at position zero). -/
theorem containsChars_refl (l : List Char) : containsChars l l = true := by
  cases l with
  | nil => rfl
  | cons c t => simp [containsChars, matchesHere_refl]

/-- `s.contains(&s)` holds for every string. -/
theorem strContains_refl (s : String) : strContains s s = true :=
  containsChars_refl s.data

/-- `find?` over a list ending in the only element satisfying the predicate. -/
theorem find?_append_last (p : VectorInput → Bool) (l : List VectorInput) (e : VectorInput)
    (h : ∀ x ∈ l, p x = false) (he : p e = true) :
    (l ++ [e]).find? p = some e := by
  induction l with
  | nil => simp [List.find?, he]
  | cons a t ih =>
    have ha := h a (by simp)
    simp only [List.cons_append, List.find?, ha]
    exact ih (fun x hx => h x (by simp [hx]))

/-- `upsert_points` on a single input equals remove-same-id-then-push, whether
or not an entry with the id was present. -/
theorem upsertOne_eq (col : List VectorInput) (e : VectorInput) :
    upsertOne col e = col.filter (fun x => !(x.id == e.id)) ++ [e] := by
  unfold upsertOne
  split
  · rfl
  · next h =>
    congr 1
    symm
    apply List.filter_eq_self.mpr
    intro a ha
    have hne : ¬ (a.id == e.id) = true := fun hc => h (List.any_eq_true.mpr ⟨a, ha, hc⟩)
    simp [hne]

/-- After upserting a point, `find_by_id` on its id returns exactly that point's
payload (with no score), regardless of the previous collection contents. -/
theorem find_by_id_upsertOne (col : List VectorInput) (id : Nat) (emb : List ℚ) (pl : Payload) :
    find_by_id (upsertOne col ⟨id, emb, pl⟩) id = some ⟨id, none, pl⟩ := by
  unfold find_by_id
  rw [upsertOne_eq, find?_append_last]
  · rfl
  · intro x hx
    rcases List.mem_filter.mp hx with ⟨-, hpx⟩
    simpa using hpx
  · simp

/-- The ingestion payload stores the freshly-read description under the
`description` key. -/
theorem payloadGet_ingest (path : RPath) (d folder : String) :
    payloadGet (ingestPayload path d folder) "description" = some d := by
  have h1 : (("path" : String) == "description") = false := by decide
  have h2 : (("description" : String) == "description") = true := by decide
  simp [payloadGet, ingestPayload, List.find?, h1, h2]

/-- After the upsert performed for a description, the existing-entry probe for
the same id and description short-circuits. -/
theorem skipExisting_upsertOne (store : List VectorInput) (path : RPath) (id : Nat)
    (emb : List ℚ) (d folder : String) :
    skipExisting (upsertOne store ⟨id, emb, ingestPayload path d folder⟩) id d = true := by
  unfold skipExisting
  rw [find_by_id_upsertOne]
  simp only [payloadGet_ingest]
  exact strContains_refl d

/-- In a list sorted by `scoreDescLe`, a missing score is never followed by a
present score. -/
theorem none_after_some (l : List VectorOutput) (hs : List.Sorted scoreDescLe l)
    (i j : Fin l.length) (hij : (i : ℕ) < (j : ℕ)) (hi : (l.get i).score = none) :
    (l.get j).score = none := by
  have hrel := List.pairwise_iff_get.mp hs i j hij
  unfold scoreDescLe at hrel
  rw [hi] at hrel
  cases hj : (l.get j).score with
  | none => rfl
  | some y => rw [hj] at hrel; simp [optScoreLe] at hrel

/-! ## Claims -/

/-- C2: the skip policy returns false on a missing description, false on every
description with a whole-word, case-insensitive occurrence of "image", "photo",
"picture" or "photograph", and true on every description without one; the
spec's three examples behave as stated. -/
theorem C2_skip_policy :
    can_be_skipped none = false ∧
    (∀ d, hasGenericToken d = true → can_be_skipped (some d) = false) ∧
    (∀ d, hasGenericToken d = false → can_be_skipped (some d) = true) ∧
    can_be_skipped (some "this is an image of nature") = false ∧
    can_be_skipped (some "This PICTURE shows mountains") = false ∧
    can_be_skipped (some "random description") = true := by
  refine ⟨rfl, ?_, ?_, by decide, by decide, by decide⟩
  · intro d h
    simp [can_be_skipped, h]
  · intro d h
    simp [can_be_skipped, h]

/-- Witness for C2 at a concrete generic description. -/
theorem C2_witness : can_be_skipped (some "a photo of the beach") = false :=
  C2_skip_policy.2.1 "a photo of the beach" (by decide)

/-- C3: `sort_by_score` permutes the list into descending order of score, every
missing score ordered after every present score, and the spec's three-score
example sorts as [0.5, 0.3, 0.1]. -/
theorem C3_sort_by_score_desc :
    (∀ l : List VectorOutput,
      (sort_by_score l).Perm l ∧
      List.Sorted scoreDescLe (sort_by_score l) ∧
      (∀ i j : Fin (sort_by_score l).length, (i : ℕ) < (j : ℕ) →
        ((sort_by_score l).get i).score = none → ((sort_by_score l).get j).score = none)) ∧
    sort_by_score
        [⟨1, some (mkRat 3 10), []⟩, ⟨2, some (mkRat 5 10), []⟩, ⟨3, some (mkRat 1 10), []⟩] =
      [⟨2, some (mkRat 5 10), []⟩, ⟨1, some (mkRat 3 10), []⟩, ⟨3, some (mkRat 1 10), []⟩] := by
  constructor
  · intro l
    refine ⟨List.perm_insertionSort _ l, List.sorted_insertionSort _ l, ?_⟩
    intro i j hij hi
    exact none_after_some (sort_by_score l) (List.sorted_insertionSort _ l) i j hij hi
  · decide

/-- Witness for C3: in a sorted two-element list whose head has no score, the
tail has no score either. -/
theorem C3_witness :
    ((sort_by_score [⟨1, none, []⟩, ⟨2, none, []⟩]).get ⟨1, by decide⟩).score = none :=
  (C3_sort_by_score_desc.1 [⟨1, none, []⟩, ⟨2, none, []⟩]).2.2
    ⟨0, by decide⟩ ⟨1, by decide⟩ (by decide) (by decide)

/-- C6: on an empty search-result list the query program reports the no-matches
outcome and succeeds, whatever the summarization collaborator would do — in
particular it is never invoked. -/
theorem C6_empty_query_reports_no_matches :
    ∀ (summarize : String → List String → Except Unit String) (question : String),
      query_main [] summarize question = .ok QueryOutcome.noMatches :=
  fun _ _ => rfl

/-- Witness for C6: even an always-failing summarizer leaves the outcome intact. -/
theorem C6_witness :
    query_main [] (fun _ _ => .error ()) "sunset" = .ok QueryOutcome.noMatches :=
  C6_empty_query_reports_no_matches (fun _ _ => .error ()) "sunset"

/-- C7: on scores [0.5, 0.8, 0.3, None] with threshold 0.4, `limit_results`
keeps exactly the 0.5 and 0.8 entries in their original relative order. -/
theorem C7_threshold_filtering_example :
    limit_results
        [⟨0, some (mkRat 5 10), []⟩, ⟨0, some (mkRat 8 10), []⟩,
          ⟨0, some (mkRat 3 10), []⟩, ⟨0, none, []⟩] (mkRat 4 10) =
      [⟨0, some (mkRat 5 10), []⟩, ⟨0, some (mkRat 8 10), []⟩] := by decide

/-- C10: `limit_results` keeps exactly the entries whose score is present and
strictly greater than the threshold; entries scoring exactly the threshold and
entries without a score are removed. -/
theorem C10_limit_results_strict_requires_score :
    ∀ (l : List VectorOutput) (t : ℚ),
      (∀ o, o ∈ limit_results l t ↔ o ∈ l ∧ ∃ s, o.score = some s ∧ t < s) ∧
      (∀ o, o ∈ l → o.score = some t → o ∉ limit_results l t) ∧
      (∀ o, o ∈ l → o.score = none → o ∉ limit_results l t) := by
  intro l t
  have hmem : ∀ o : VectorOutput,
      o ∈ limit_results l t ↔ o ∈ l ∧ ∃ s, o.score = some s ∧ t < s := by
    intro o
    unfold limit_results
    rw [List.mem_filter]
    constructor
    · rintro ⟨hl, hp⟩
      refine ⟨hl, ?_⟩
      cases ho : o.score with
      | none => rw [ho] at hp; simp at hp
      | some s =>
        rw [ho] at hp
        simp at hp
        exact ⟨s, rfl, hp⟩
    · rintro ⟨hl, s, hs, hts⟩
      refine ⟨hl, ?_⟩
      rw [hs]
      simpa using hts
  refine ⟨hmem, ?_, ?_⟩
  · intro o _ hsc hin
    rcases (hmem o).mp hin with ⟨-, s, hs, hts⟩
    rw [hsc] at hs
    injection hs with h
    rw [h] at hts
    exact lt_irrefl _ hts
  · intro o _ hsc hin
    rcases (hmem o).mp hin with ⟨-, s, hs, -⟩
    rw [hsc] at hs
    exact Option.noConfusion hs

/-- Witness for C10: an entry scoring exactly the threshold is removed. -/
theorem C10_witness : outW ∉ limit_results [outW] (mkRat 1 2) :=
  (C10_limit_results_strict_requires_score [outW] (mkRat 1 2)).2.1 outW
    (by decide) (by decide)

/-- C1: when the stored metadata description is unchanged, a second
`process_path` run after a successful first run finds an existing point under
the same content id whose payload description contains the freshly-read
description, performs no upsert, issues no embedding request, and leaves the
store exactly as the first run left it. -/
theorem C1_second_run_is_noop
    (c : Collabs) (hash : RPath → Nat) (path : RPath)
    (store store1 : List VectorInput) (d : String) (b : Bool) (calls : List (List String))
    (hdesc : c.getDescription path = .ok (some d))
    (hrun1 : process_path c hash path store = .ok ⟨store1, b, calls⟩) :
    (∃ existing, find_by_id store1 (hash path) = some existing ∧
      ∃ ed, payloadGet existing.payload "description" = some ed ∧ strContains ed d = true) ∧
    process_path c hash path store1 = .ok ⟨store1, false, []⟩ := by
  by_cases hskip : skipExisting store (hash path) d = true
  · have h1 : process_path c hash path store = .ok ⟨store, false, []⟩ := by
      unfold process_path
      rw [hdesc]
      simp [hskip]
    rw [h1] at hrun1
    injection hrun1 with h2
    injection h2 with hstore hb hcalls
    subst hstore
    unfold skipExisting at hskip
    cases hfind : find_by_id store (hash path) with
    | none =>
      simp only [hfind] at hskip
      exact Bool.noConfusion hskip
    | some existing =>
      simp only [hfind] at hskip
      cases hpd : payloadGet existing.payload "description" with
      | none =>
        simp only [hpd] at hskip
        exact Bool.noConfusion hskip
      | some ed =>
        simp only [hpd] at hskip
        exact ⟨⟨existing, rfl, ed, hpd, hskip⟩, h1⟩
  · have hskip' : skipExisting store (hash path) d = false := by
      simpa using hskip
    unfold process_path at hrun1
    rw [hdesc] at hrun1
    simp only [hskip', Bool.false_eq_true, if_false] at hrun1
    cases hemb : c.getEmbedding d with
    | error err => rw [hemb] at hrun1; simp at hrun1
    | ok emb =>
      rw [hemb] at hrun1
      cases hfold : path.parent.bind RPath.fileName with
      | none =>
        simp only [hfold] at hrun1
        exact Except.noConfusion hrun1
      | some folder =>
        simp only [hfold] at hrun1
        injection hrun1 with h2
        injection h2 with hstore hb hcalls
        subst hstore
        refine ⟨⟨_, find_by_id_upsertOne store (hash path) emb (ingestPayload path d folder),
          d, payloadGet_ingest path d folder, strContains_refl d⟩, ?_⟩
        unfold process_path
        rw [hdesc]
        simp [skipExisting_upsertOne]

/-- Witness for C1: a concrete second run on the store left by a first run is a
no-op. -/
theorem C1_witness :
    process_path chatW hashW pathW storeW = .ok ⟨storeW, false, []⟩ :=
  (C1_second_run_is_noop chatW hashW pathW [] storeW "a dog" true [["a dog"]]
    (by decide) (by decide)).2

/-- C5 counterexample: on the concrete no-parent path `/` the ingestion step
does not default the folder to any sentinel; it fails with a panic (the
`unwrap()` at embeddings.rs:107-113). -/
theorem C5_counterexample :
    RPath.parent rootPathW = none ∧
    process_path chatW hashW rootPathW [] = .error PErr.panic := by decide

/-- C5 amended: for every file path whose immediate parent directory name
cannot be extracted, once processing reaches payload construction (description
present, no existing point under the content id, embedding obtained)
`process_path` fails with a panic instead of upserting a payload with a
defaulted folder. -/
theorem C5_amended_panic_without_parent_name
    (c : Collabs) (hash : RPath → Nat) (path : RPath) (store : List VectorInput)
    (d : String) (emb : List ℚ)
    (hdesc : c.getDescription path = .ok (some d))
    (hmiss : find_by_id store (hash path) = none)
    (hemb : c.getEmbedding d = .ok emb)
    (hfold : path.parent.bind RPath.fileName = none) :
    process_path c hash path store = .error PErr.panic := by
  have hskip : skipExisting store (hash path) d = false := by
    unfold skipExisting
    simp [hmiss]
  unfold process_path
  rw [hdesc]
  simp only [hskip, Bool.false_eq_true, if_false, hemb, hfold]

/-- Witness for C5 at the empty relative path. -/
theorem C5_witness : process_path chatW hashW emptyPathW [] = .error PErr.panic :=
  C5_amended_panic_without_parent_name chatW hashW emptyPathW [] "a dog" [7]
    (by decide) (by decide) (by decide) (by decide)

/-- C4 counterexample: a two-file corpus whose files both survive the probe
triggers two single-description embedding requests, not one batched request
covering both descriptions. -/
theorem C4_counterexample :
    (generate chatC4 hashC4 [pathC41, pathC42] []).map GenResult.embedCalls
        = .ok [["a.jpg"], ["b.jpg"]] ∧
    ([["a.jpg"], ["b.jpg"]] : List (List String)).length ≠ 1 := by decide

/-- Every embedding request a successful `process_path` call issues covers
exactly one description. -/
theorem process_path_calls_singleton (c : Collabs) (hash : RPath → Nat) (path : RPath)
    (store : List VectorInput) (r : PPResult)
    (h : process_path c hash path store = .ok r) :
    ∀ call ∈ r.embedCalls, call.length = 1 := by
  unfold process_path at h
  cases hd : c.getDescription path with
  | error e =>
    rw [hd] at h
    exact Except.noConfusion h
  | ok o =>
    rw [hd] at h
    cases o with
    | none =>
      injection h with h2
      subst h2
      intro call hc
      simp at hc
    | some d =>
      by_cases hskip : skipExisting store (hash path) d = true
      · simp only [hskip, if_true] at h
        injection h with h2
        subst h2
        intro call hc
        simp at hc
      · have hskip' : skipExisting store (hash path) d = false := by simpa using hskip
        simp only [hskip', Bool.false_eq_true, if_false] at h
        cases he : c.getEmbedding d with
        | error err =>
          rw [he] at h
          exact Except.noConfusion h
        | ok emb =>
          rw [he] at h
          cases hf : path.parent.bind RPath.fileName with
          | none =>
            simp only [hf] at h
            exact Except.noConfusion h
          | some folder =>
            simp only [hf] at h
            injection h with h2
            subst h2
            intro call hc
            simp only [List.mem_singleton] at hc
            subst hc
            rfl

/-- Every embedding request issued during a successful loop run covers exactly
one description, given the same holds of the accumulator. -/
theorem generateLoop_calls_singleton (c : Collabs) (hash : RPath → Nat) :
    ∀ (files : List RPath) (store : List VectorInput) (calls : List (List String))
      (r : GenResult),
      (∀ call ∈ calls, call.length = 1) →
      generateLoop c hash files store calls = .ok r →
      ∀ call ∈ r.embedCalls, call.length = 1 := by
  intro files
  induction files with
  | nil =>
    intro store calls r hc h
    injection h with h2
    subst h2
    exact hc
  | cons path rest ih =>
    intro store calls r hc h
    cases hq : path.parent with
    | none => simp [generateLoop, hq] at h
    | some q =>
      cases hpp : process_path c hash path store with
      | ok pr =>
        have hstep : generateLoop c hash (path :: rest) store calls
            = generateLoop c hash rest pr.store (calls ++ pr.embedCalls) := by
          conv_lhs => rw [generateLoop]
          rw [hq, hpp]
        rw [hstep] at h
        refine ih pr.store (calls ++ pr.embedCalls) r ?_ h
        intro call hcall
        rcases List.mem_append.mp hcall with h1 | h2
        · exact hc call h1
        · exact process_path_calls_singleton c hash path store pr hpp call h2
      | error e =>
        cases e with
        | collaborator =>
          have hstep : generateLoop c hash (path :: rest) store calls
              = generateLoop c hash rest store calls := by
            conv_lhs => rw [generateLoop]
            rw [hq, hpp]
          rw [hstep] at h
          exact ih store calls r hc h
        | panic => simp [generateLoop, hq, hpp] at h

/-- C4 amended: the ingestion step issues one embedding request per surviving
file — a file whose description is present and whose existing-entry probe does
not short-circuit — each request covering exactly that file's single
description, and the file's point is upserted with the embedding returned by
its own request; accordingly, in any successful run every issued embedding
request covers exactly one description, never a batch. -/
theorem C4_amended_one_request_per_file :
    (∀ (c : Collabs) (hash : RPath → Nat) (path : RPath) (store : List VectorInput)
        (d folder : String) (emb : List ℚ),
      c.getDescription path = .ok (some d) →
      skipExisting store (hash path) d = false →
      c.getEmbedding d = .ok emb →
      path.parent.bind RPath.fileName = some folder →
      process_path c hash path store =
        .ok ⟨upsertOne store ⟨hash path, emb, ingestPayload path d folder⟩, true, [[d]]⟩) ∧
    (∀ (c : Collabs) (hash : RPath → Nat) (files : List RPath) (store : List VectorInput)
        (r : GenResult),
      generate c hash files store = .ok r → ∀ call ∈ r.embedCalls, call.length = 1) := by
  constructor
  · intro c hash path store d folder emb hdesc hsurv hemb hfold
    unfold process_path
    rw [hdesc]
    simp only [hsurv, Bool.false_eq_true, if_false, hemb, hfold]
  · intro c hash files store r h
    exact generateLoop_calls_singleton c hash files store [] r (by simp) h

/-- Witness for C4 at a concrete surviving file whose stale stored description
does not contain the fresh one. -/
theorem C4_witness :
    process_path chatW hashW pathW staleStoreW =
      .ok ⟨upsertOne staleStoreW ⟨hashW pathW, [7], ingestPayload pathW "a dog" "holiday"⟩,
        true, [["a dog"]]⟩ :=
  C4_amended_one_request_per_file.1 chatW hashW pathW staleStoreW "a dog" "holiday" [7]
    (by decide) (by decide) (by decide) (by decide)

/-- Upserting one point preserves distinctness of the stored ids. -/
theorem ids_nodup_upsertOne (col : List VectorInput) (e : VectorInput)
    (h : (col.map VectorInput.id).Nodup) :
    ((upsertOne col e).map VectorInput.id).Nodup := by
  rw [upsertOne_eq, List.map_append]
  apply List.Nodup.append
  · exact List.Nodup.sublist (List.Sublist.map _ (List.filter_sublist col)) h
  · simp
  · intro x hx hx'
    simp only [List.map_cons, List.map_nil, List.mem_singleton] at hx'
    subst hx'
    rcases List.mem_map.mp hx with ⟨y, hy, hyid⟩
    rcases List.mem_filter.mp hy with ⟨-, hpy⟩
    rw [hyid] at hpy
    simp at hpy

/-- A whole `upsert_points` batch preserves distinctness of the stored ids. -/
theorem ids_nodup_upsert_points (batch : List VectorInput) :
    ∀ col : List VectorInput, (col.map VectorInput.id).Nodup →
      ((upsert_points col batch).map VectorInput.id).Nodup := by
  induction batch with
  | nil => intro col h; exact h
  | cons e t ih =>
    intro col h
    have : upsert_points col (e :: t) = upsert_points (upsertOne col e) t := rfl
    rw [this]
    exact ih _ (ids_nodup_upsertOne col e h)

/-- Any sequence of batches applied from the empty collection keeps ids
distinct. -/
theorem ids_nodup_applyUpserts (batches : List (List VectorInput)) :
    ((applyUpserts batches).map VectorInput.id).Nodup := by
  suffices h : ∀ col : List VectorInput, (col.map VectorInput.id).Nodup →
      ((batches.foldl upsert_points col).map VectorInput.id).Nodup by
    exact h [] (by simp)
  induction batches with
  | nil => intro col hc; exact hc
  | cons b t ih =>
    intro col hc
    exact ih _ (ids_nodup_upsert_points b col hc)

/-- C8: an upsert whose id already exists replaces the stored point (removal of
the old entry, then append), and after any sequence of `upsert_points` calls on
a fresh collection all stored ids are distinct. -/
theorem C8_upsert_replaces_and_ids_distinct :
    (∀ (col : List VectorInput) (e : VectorInput),
      upsertOne col e = col.filter (fun x => !(x.id == e.id)) ++ [e]) ∧
    (∀ batches : List (List VectorInput),
      ((applyUpserts batches).map VectorInput.id).Nodup) :=
  ⟨upsertOne_eq, ids_nodup_applyUpserts⟩

/-- Witness for C8: re-upserting an existing id leaves a single entry. -/
theorem C8_witness :
    ((applyUpserts [[⟨1, [], []⟩], [⟨1, [], []⟩]]).map VectorInput.id).Nodup :=
  C8_upsert_replaces_and_ids_distinct.2 [[⟨1, [], []⟩], [⟨1, [], []⟩]]

/-- `process_path` can only panic when the parent directory name is missing. -/
theorem process_path_no_panic (c : Collabs) (hash : RPath → Nat) (path : RPath)
    (store : List VectorInput) (h : (path.parent.bind RPath.fileName).isSome = true) :
    process_path c hash path store ≠ .error .panic := by
  unfold process_path
  cases hd : c.getDescription path with
  | error e => simp
  | ok o =>
    cases o with
    | none => simp
    | some d =>
      by_cases hskip : skipExisting store (hash path) d = true
      · simp [hskip]
      · have hskip' : skipExisting store (hash path) d = false := by simpa using hskip
        simp only [hskip', Bool.false_eq_true, if_false]
        cases he : c.getEmbedding d with
        | error e => simp
        | ok emb =>
          cases hf : path.parent.bind RPath.fileName with
          | none => rw [hf] at h; simp at h
          | some folder => simp

/-- `Err` returns of `process_path` are swallowed by the loop, so the
embeddings run succeeds whenever every file's parent directory has a name. -/
theorem generate_ok_of_named_parents
    (c : Collabs) (hash : RPath → Nat) (files : List RPath) (store : List VectorInput)
    (h : ∀ p ∈ files, ((RPath.parent p).bind RPath.fileName).isSome = true) :
    ∃ r, generate c hash files store = .ok r := by
  unfold generate
  suffices h' : ∀ (fs : List RPath) (store' : List VectorInput) (calls : List (List String)),
      (∀ p ∈ fs, ((RPath.parent p).bind RPath.fileName).isSome = true) →
      ∃ r, generateLoop c hash fs store' calls = .ok r from h' files store [] h
  intro fs
  induction fs with
  | nil => exact fun store' calls _ => ⟨_, rfl⟩
  | cons path rest ih =>
    intro store' calls hps
    have hp := hps path (by simp)
    have hq : ∃ q, path.parent = some q := by
      cases hq' : path.parent with
      | none => rw [hq', Option.none_bind] at hp; simp at hp
      | some q => exact ⟨q, rfl⟩
    rcases hq with ⟨q, hq⟩
    have hrest : ∀ p ∈ rest, ((RPath.parent p).bind RPath.fileName).isSome = true :=
      fun p hmem => hps p (by simp [hmem])
    cases hpp : process_path c hash path store' with
    | ok r =>
      have hstep : generateLoop c hash (path :: rest) store' calls
          = generateLoop c hash rest r.store (calls ++ r.embedCalls) := by
        conv_lhs => rw [generateLoop]
        rw [hq, hpp]
      rw [hstep]
      exact ih r.store (calls ++ r.embedCalls) hrest
    | error e =>
      cases e with
      | collaborator =>
        have hstep : generateLoop c hash (path :: rest) store' calls
            = generateLoop c hash rest store' calls := by
          conv_lhs => rw [generateLoop]
          rw [hq, hpp]
        rw [hstep]
        exact ih store' calls hrest
      | panic => exact absurd hpp (process_path_no_panic c hash path store' hp)

/-- The description run succeeds and counts every scanned file whenever every
file has a parent component, for every behaviour of the collaborators. -/
theorem descriptions_generate_ok_of_parents (c : DescCollabs) (files : List RPath)
    (h : ∀ p ∈ files, (RPath.parent p).isSome = true) :
    ∃ outs, descriptions_generate c files 0 [] = .ok (files.length, outs) := by
  suffices h' : ∀ (fs : List RPath) (n : Nat) (outs : List DescOutcome),
      (∀ p ∈ fs, (RPath.parent p).isSome = true) →
      ∃ os, descriptions_generate c fs n outs = .ok (n + fs.length, os) by
    rcases h' files 0 [] h with ⟨os, hos⟩
    exact ⟨os, by simpa using hos⟩
  intro fs
  induction fs with
  | nil =>
    intro n outs _
    exact ⟨outs, by simp [descriptions_generate]⟩
  | cons path rest ih =>
    intro n outs hps
    have hp := hps path (by simp)
    obtain ⟨q, hq⟩ : ∃ q, path.parent = some q := by
      cases hq' : path.parent with
      | none => rw [hq'] at hp; simp at hp
      | some q => exact ⟨q, rfl⟩
    rcases ih (n + 1) (outs ++ [descProcessFile c path])
        (fun p hm => hps p (by simp [hm])) with ⟨os, hos⟩
    refine ⟨os, ?_⟩
    have hstep : descriptions_generate c (path :: rest) n outs
        = descriptions_generate c rest (n + 1) (outs ++ [descProcessFile c path]) := by
      conv_lhs => rw [descriptions_generate]
      rw [hq]
    rw [hstep, hos, List.length_cons]
    have harith : n + 1 + rest.length = n + (rest.length + 1) := by omega
    rw [harith]

/-- C9 counterexample: the concrete corpus `["/a.jpg"]` (as scanning `/` yields
it) completes its scan but the run panics at the folder-name `unwrap()` instead
of returning success, so per-file failure isolation does not hold for every
corpus. -/
theorem C9_counterexample :
    generate chatW hashW [rootFileW] [] = .error GErr.panic := by decide

/-- C9 amended: per-file collaborator failures surfaced as `Err` returns —
metadata read and embedding errors in the embeddings run (the modelled store
cannot fail); persons, encoding, chat and metadata-write errors in the
descriptions run — are caught and logged inside the run and are not aggregated
into a run-level failure: once the scan completes, `EmbeddingsService::generate`
succeeds for every corpus whose files' parent directory names are extractable,
and `DescriptionService::generate` succeeds, counting every scanned file, for
every corpus whose files have parent components — even if processing failed for
every file. A corpus containing a file without a (named) parent instead panics
the run. -/
theorem C9_amended_failures_not_aggregated :
    (∀ (c : Collabs) (hash : RPath → Nat) (files : List RPath) (store : List VectorInput),
      (∀ p ∈ files, ((RPath.parent p).bind RPath.fileName).isSome = true) →
      ∃ r, generate c hash files store = .ok r) ∧
    (∀ (c : DescCollabs) (files : List RPath),
      (∀ p ∈ files, (RPath.parent p).isSome = true) →
      ∃ outs, descriptions_generate c files 0 [] = .ok (files.length, outs)) :=
  ⟨generate_ok_of_named_parents, descriptions_generate_ok_of_parents⟩

/-- Witness for C9: with collaborators that always fail, one-file runs of both
services still succeed. -/
theorem C9_witness :
    (∃ r, generate chatFail hashW [pathW] [] = .ok r) ∧
    (∃ outs, descriptions_generate descChatFail [pathW] 0 [] = .ok (1, outs)) :=
  ⟨C9_amended_failures_not_aggregated.1 chatFail hashW [pathW] [] (by decide),
    C9_amended_failures_not_aggregated.2 descChatFail [pathW] (by decide)⟩

end PhotoScanner
